import Mathlib

/-!
Verification of the transcription orchestration and result-encoding engine of
`whisper_gui.py`: the model cache (`load_model`), the transcription runner
(`transcribe_audio`, `transcribe_multiple_files`, `transcribe_handler`), the
result formatter (the report strings built in `transcribe_audio` and in the
batch branch of `transcribe_handler`), the result parser and the exporters
(`export_handler`, `export_transcription`, `export_batch_results`).

Python strings are modelled as `List Char` (`Str`), and the handful of Python
string primitives the source uses (`startswith`, `strip`, `split`, `in`,
slicing, `os.path.basename`) are defined below with Python semantics.
The external recognizer backend (`whisper`) is a parameter everywhere
(`recognize`, `build`), as the spec treats it as an external capability.
The success/error markers below reproduce the exact characters stored in the
source file.
-/

abbrev Str := List Char

/-- Python `s.startswith(p)`. -/
def startswith : Str → Str → Bool
  | [], _ => true
  | _ :: _, [] => false
  | p :: ps, s :: ss => p == s && startswith ps ss

/-- Python `n in s` (substring containment). -/
def containsSub (n : Str) : Str → Bool
  | [] => startswith n []
  | s :: t => startswith n (s :: t) || containsSub n t

/-- The whitespace characters Python `str.strip()` removes (ASCII range). -/
def isWS (c : Char) : Bool :=
  c == ' ' || c == '\t' || c == '\n' || c == '\r' || c == '\x0b' || c == '\x0c'

/-- Python `s.strip()`. -/
def pyStrip (s : Str) : Str :=
  ((s.dropWhile isWS).reverse.dropWhile isWS).reverse

/-- Everything after the first occurrence of `c`: Python `s.split(c, 1)[1]`
(total; returns `[]` when `c` does not occur, a case the source never hits
because every call site is guarded by a `startswith` check that guarantees a
colon). -/
def afterFirst (c : Char) : Str → Str
  | [] => []
  | a :: t => if a = c then t else afterFirst c t

/-- Python `s.split(c)` for a one-character separator. -/
def pySplit (c : Char) : Str → List Str
  | [] => [[]]
  | a :: t =>
    if a = c then [] :: pySplit c t
    else
      match pySplit c t with
      | [] => [[a]]
      | s :: ss => (a :: s) :: ss

/-- Python `os.path.basename` on a POSIX path. -/
def basename (p : Str) : Str :=
  (p.reverse.takeWhile (fun c => !(c == '/'))).reverse

/-- Fuel-driven digit rendering; `fuel` bounds the recursion depth and is
always sufficient at `n + 1` since a number has at most `n + 1` digits. -/
def natStrAux : Nat → Nat → Str
  | 0, _ => []
  | fuel + 1, n =>
    if n < 10 then [Char.ofNat (48 + n)]
    else natStrAux fuel (n / 10) ++ [Char.ofNat (48 + n % 10)]

/-- Decimal rendering of a natural number, as Python `str(n)`. -/
def natStr (n : Nat) : Str := natStrAux (n + 1) n

/-! ### String constants of the source file -/

/-- The section delimiter line `"-" * 50`. -/
def delim : Str := List.replicate 50 '-'

/-- The rule `"=" * 50` written by the plain-text exporter. -/
def eqRule : Str := List.replicate 50 '='

def fileMarker : Str := "FILE:".data

def fileMarkerSp : Str := "FILE: ".data

def transLabel : Str := "**Transcription:**".data

def dlLabel : Str := "**Detected Language:".data

def dlLabelFull : Str := "**Detected Language:** ".data

def muLabelFull : Str := "**Model Used:** ".data

def durLabel : Str := "**Duration:".data

def durLabelFull : Str := "**Duration:** ".data

def secondsSuffix : Str := " seconds".data

def starStar : Str := "**".data

/-- The success marker, exactly the characters stored in the source file. -/
def okMark : Str := "‚úÖ".data

/-- The error marker, exactly the characters stored in the source file. -/
def errMark : Str := "‚ùå".data

def summaryPre : Str := okMark ++ " Processed".data

def processedPre : Str := okMark ++ " Processed ".data

def filesSuffix : Str := " files successfully".data

def noFilesMsg : Str := errMark ++ " Please upload audio files or record audio".data

def transErrPre : Str := errMark ++ " Transcription error: ".data

def loadErrPre : Str := errMark ++ " Error loading model: ".data

def apos : Char := Char.ofNat 39

def loadedMsg (name : Str) : Str :=
  okMark ++ " Model ".data ++ apos :: name ++ apos :: " loaded successfully!".data

def alreadyMsg (name : Str) : Str :=
  okMark ++ " Model ".data ++ apos :: name ++ apos :: " already loaded".data

def autoDetect : Str := "Auto-detect".data

def csvHeader : Str := "Filename,Transcription,Language,Duration".data

def quoteCommaQuote : Str := "\",\"".data

def txtHeaderPre : Str := "Transcription - ".data

/-! ### ModelCache: `load_model` (source lines 51-67) -/

/-- A loaded recognition backend; `whisper.load_model(name)` yields a fresh
handle for `name`, recorded in the `ident` field. -/
structure RecognizerHandle where
  ident : Str
deriving DecidableEq, Repr

/-- The mutable cache fields of `LocalWhisperGUI`: `self.model` and
`self.model_name`. -/
structure CacheState where
  model : Option RecognizerHandle
  model_name : Str
deriving DecidableEq, Repr

/-- Embedding of `load_model` (source lines 51-67), parameterized by the external model
construction capability `build`.  Returns the new cache state, the status
string, and whether construction (`whisper.load_model`) was invoked.
Note the source assigns `self.model_name = model_name` before calling
`whisper.load_model`, so on construction failure the recorded identifier has
already been updated while `self.model` keeps the previous handle. -/
def load_model (build : Str → Except Str RecognizerHandle)
    (s : CacheState) (model_name : Str) : CacheState × Str × Bool :=
  if s.model = none ∨ s.model_name ≠ model_name then
    let s1 : CacheState := { s with model_name := model_name }
    match build model_name with
    | .ok h => ({ s1 with model := some h }, loadedMsg model_name, true)
    | .error e => (s1, loadErrPre ++ e, true)
  else (s, alreadyMsg model_name, false)

/-- The always-succeeding model construction capability: a fresh handle
recording the requested identifier. -/
def whisper_build (name : Str) : Except Str RecognizerHandle := .ok ⟨name⟩

/-! ### TranscriptionRunner (source lines 69-145, 281-337) -/

/-- What the external recognizer returns: `result["text"]`,
`result["language"]`, and the end timestamp of the last segment rendered with
two decimals when segments are present (source line 108). -/
structure RecogOutput where
  text : Str
  language : Str
  duration : Option Str
deriving DecidableEq, Repr

/-- The `language` entry of the options dict (source lines 86-93): present
exactly when `language` is truthy and differs from `"Auto-detect"`. -/
def options_language (language : Option Str) : Option Str :=
  match language with
  | none => none
  | some l => if l ≠ [] ∧ l ≠ autoDetect then some l else none

/-- The detailed report built in `transcribe_audio` (source lines 102-108). -/
def details_output (transcription detected_language model_name : Str)
    (duration : Option Str) : Str :=
  transLabel ++ '\n' :: transcription ++ '\n' :: '\n' ::
  dlLabelFull ++ detected_language ++ '\n' ::
  muLabelFull ++ model_name ++ '\n' ::
  (match duration with
   | some d => durLabelFull ++ d ++ secondsSuffix ++ ['\n']
   | none => [])

/-- Embedding of `transcribe_audio` (source lines 69-114), parameterized by the external
recognizer capability.  Returns `(transcription, details)`; any recognizer
exception is caught and reported as an error details string with empty
transcription. -/
def transcribe_audio (recognize : Str → Option Str → Except Str RecogOutput)
    (audio_path : Str) (language : Option Str) (model_name : Str) : Str × Str :=
  match recognize audio_path (options_language language) with
  | .ok r => (r.text, details_output r.text r.language model_name r.duration)
  | .error e => ([], transErrPre ++ e)

/-- One aggregated per-file result, the dict built at source lines 132-136 and
323-327. -/
structure BatchItem where
  filename : Str
  transcription : Str
  details : Str
deriving DecidableEq, Repr

/-- Embedding of `transcribe_multiple_files` (source lines 116-138), also the
aggregation loop of the batch branch of `transcribe_handler` (lines 317-327):
keep an item exactly when its transcription text is non-empty. -/
def transcribe_multiple_files (recognize : Str → Option Str → Except Str RecogOutput)
    (audio_files : List Str) (language : Option Str) (model_name : Str) :
    List BatchItem :=
  audio_files.filterMap (fun p =>
    let td := transcribe_audio recognize p language model_name
    if td.1.isEmpty then none else some ⟨basename p, td.1, td.2⟩)

/-- The batch summary line (source line 330). -/
def summary_line (n : Nat) : Str := processedPre ++ natStr n ++ filesSuffix

/-- One `FILE:` section of the batch report (source lines 332-335). -/
def batch_section (r : BatchItem) : Str :=
  fileMarkerSp ++ r.filename ++ '\n' :: r.details ++ '\n' :: '\n' ::
  delim ++ ['\n', '\n']

/-- The unified batch report (source lines 329-337). -/
def format_batch (results : List BatchItem) : Str :=
  summary_line results.length ++ '\n' :: '\n' :: (results.map batch_section).flatten

/-- Embedding of `transcribe_handler` (source lines 281-337): microphone first, then the
empty / single / batch file cases. -/
def transcribe_handler (recognize : Str → Option Str → Except Str RecogOutput)
    (audio_files : List Str) (mic_audio : Option Str) (language : Option Str)
    (model_name : Str) : Str :=
  match mic_audio with
  | some mic => (transcribe_audio recognize mic language model_name).2
  | none =>
    match audio_files with
    | [] => noFilesMsg
    | [p] => (transcribe_audio recognize p language model_name).2
    | ps => format_batch (transcribe_multiple_files recognize ps language model_name)

/-! ### ResultParser and Exporter (source lines 147-196, 339-401) -/

/-- The `current_file` dict of the parsing loop in `export_handler`; a field is
`some` exactly when the corresponding key is present. -/
structure PFile where
  filename : Option Str := none
  language : Option Str := none
  duration : Option Str := none
  transcription : Option Str := none
deriving DecidableEq, Repr

/-- Python truthiness of the `current_file` dict: it is empty exactly when no
key has been set. -/
def pfIsEmpty (r : PFile) : Bool :=
  r.filename.isNone && r.language.isNone && r.duration.isNone && r.transcription.isNone

/-- One iteration of the parsing loop of `export_handler`
(source lines 361-386), acting on `(results, current_file)`. -/
def parse_line (st : List PFile × PFile) (line : Str) : List PFile × PFile :=
  let results := st.1
  let current := st.2
  if startswith fileMarker line then
    ((if pfIsEmpty current then results else results ++ [current]),
     { filename := some (pyStrip (line.drop 5)) })
  else if startswith dlLabel line then
    (results, { current with language := some (pyStrip (afterFirst ':' line)) })
  else if startswith durLabel line then
    (results, { current with duration := some (pyStrip (afterFirst ':' line)) })
  else if startswith summaryPre line then
    (results, current)
  else if startswith delim line then
    if pfIsEmpty current then (results, current)
    else (results ++ [{ current with transcription := some (current.transcription.getD []) }], {})
  else if !pfIsEmpty current && !startswith starStar line && !(pyStrip line).isEmpty then
    (results, { current with transcription := some (current.transcription.getD [] ++ line ++ ['\n']) })
  else
    (results, current)

/-- The record list produced by running the parsing loop over a list of
lines: the fold of `parse_line`, keeping only the `results` component.  Note
the `current_file` still open when the lines run out is dropped — the source
has no flush after the loop (source lines 357-386). -/
def parse_lines (lines : List Str) : List PFile :=
  (lines.foldl parse_line ([], {})).1

/-- The record list produced by the parsing loop of `export_handler`: the
fold over `transcription_text.split('\n')` (source lines 357-386). -/
def parse_batch_records (t : Str) : List PFile :=
  parse_lines (pySplit '\n' t)

/-- One row of `df_data` (source lines 389-396). -/
structure CsvRow where
  filename : Str
  transcription : Str
  language : Str
  duration : Str
deriving DecidableEq, Repr

/-- The `df_data` row built from one parsed record (source lines 391-396). -/
def pfRow (r : PFile) : CsvRow :=
  ⟨r.filename.getD [], pyStrip (r.transcription.getD []),
   r.language.getD [], r.duration.getD []⟩

/-- The full `df_data` list handed to `export_batch_results`. -/
def parse_batch_rows (t : Str) : List CsvRow :=
  (parse_batch_records t).map pfRow

/-- How `export_handler` classifies the text box contents
(source lines 351-355 and 399). -/
inductive ExportKind
  | nothing
  | batch
  | single
deriving DecidableEq, Repr

/-- The classification performed by `export_handler`: empty text is a no-op,
text containing both the substring `FILE:` and the 50-hyphen delimiter is a
batch report, anything else a single report. -/
def classify (t : Str) : ExportKind :=
  if t.isEmpty then .nothing
  else if containsSub fileMarker t && containsSub delim t then .batch
  else .single

/-- Double every double-quote character (source line 189). -/
def escape_quotes (s : Str) : Str :=
  (s.map (fun c => if c == '"' then [c, c] else [c])).flatten

/-- One CSV data row (source line 190): only the transcription field is
quote-escaped. -/
def csv_row (r : CsvRow) : Str :=
  '"' :: r.filename ++ quoteCommaQuote ++ escape_quotes r.transcription ++
  quoteCommaQuote ++ r.language ++ quoteCommaQuote ++ r.duration ++ ['"', '\n']

/-- Embedding of `export_batch_results` (source lines 170-196), returning the
content of the file it writes (`none` = no file created).  The emptiness guard
of line 172 tests whether the argument is None, or has an attribute named
empty that is truthy; a Python list has no such attribute, so an empty list
is NOT filtered out and still produces a header-only file. -/
def export_batch_results (batch_results : Option (List CsvRow)) : Option Str :=
  match batch_results with
  | none => none
  | some rows => some (csvHeader ++ '\n' :: (rows.map csv_row).flatten)

/-- Embedding of `export_transcription` (source lines 147-168), returning the
content of the file it writes (`none` = no file created); `now` is the
timestamp string written into the header. -/
def export_transcription (now : Str) (transcription : Str) : Option Str :=
  if transcription.isEmpty then none
  else some (txtHeaderPre ++ now ++ '\n' :: eqRule ++ '\n' :: '\n' :: transcription)

/-- Embedding of `export_handler` (source lines 339-401): classify, then parse and export as
CSV, or export as plain text. -/
def export_handler (now : Str) (transcription_text : Str) : Option Str :=
  if transcription_text.isEmpty then none
  else if containsSub fileMarker transcription_text && containsSub delim transcription_text then
    export_batch_results (some (parse_batch_rows transcription_text))
  else export_transcription now transcription_text

/-! ### Structured results and the formatter on them (spec §3, §4.3) -/

/-- A structured transcription result as described by the spec data model;
`duration` is the already-rendered two-decimal seconds value. -/
structure TranscriptionResult where
  filename : Str
  text : Str
  language : Str
  duration : Option Str
deriving DecidableEq, Repr

/-- The aggregated item the batch loop builds for a result: its details string
is exactly the `transcribe_audio` report. -/
def result_item (model_name : Str) (r : TranscriptionResult) : BatchItem :=
  ⟨r.filename, r.text, details_output r.text r.language model_name r.duration⟩

/-- Formatting a list of structured results into the unified batch report. -/
def format_results (model_name : Str) (rs : List TranscriptionResult) : Str :=
  format_batch (rs.map (result_item model_name))

/-! ### Basic lemmas about the Python string primitives -/

/-- Join a list of lines, terminating each with the separator. -/
def joinTerm (c : Char) (L : List Str) : Str :=
  (L.map (fun l => l ++ [c])).flatten

/-- The optional duration line of a section. -/
def durLines (d : Option Str) : List Str :=
  match d with
  | some x => [durLabelFull ++ x ++ secondsSuffix]
  | none => []

/-- The lines of one `FILE:` section of the batch report, in order. -/
def secLines (model_name : Str) (r : TranscriptionResult) : List Str :=
  (fileMarkerSp ++ r.filename) :: transLabel ::
  (pySplit '\n' r.text ++
    ([] :: (dlLabelFull ++ r.language) :: (muLabelFull ++ model_name) ::
      (durLines r.duration ++ [[], [], delim, []])))

/-- The lines of the whole batch report, in order (each terminated by a
newline in the rendered string). -/
def fmtLines (model_name : Str) (rs : List TranscriptionResult) : List Str :=
  summary_line rs.length :: [] :: (rs.map (secLines model_name)).flatten

/-- A transcription-text line that the parsing loop treats as free text:
not matching any marker, not a `**` label, and not blank. -/
def TextLineOK (l : Str) : Prop :=
  startswith fileMarker l = false ∧ startswith dlLabel l = false ∧
  startswith durLabel l = false ∧ startswith summaryPre l = false ∧
  startswith delim l = false ∧ startswith starStar l = false ∧
  (pyStrip l).isEmpty = false

/-- Non-adversarial content of one result: no embedded newlines in the
labeled fields, no leading/trailing whitespace where the parser strips it,
a non-empty language, and transcription-text lines that the parser keeps
verbatim. -/
def GoodResult (r : TranscriptionResult) : Prop :=
  '\n' ∉ r.filename ∧
  r.filename.dropWhile isWS = r.filename ∧
  r.filename.reverse.dropWhile isWS = r.filename.reverse ∧
  '\n' ∉ r.language ∧ r.language ≠ [] ∧
  r.language.reverse.dropWhile isWS = r.language.reverse ∧
  '\n' ∉ r.duration.getD [] ∧
  r.text.dropWhile isWS = r.text ∧
  r.text.reverse.dropWhile isWS = r.text.reverse ∧
  (∀ l ∈ pySplit '\n' r.text, TextLineOK l)

/-- The parsed record the loop accumulates for one well-formed section:
the filename is recovered exactly, the language and duration carry the
`"** "` prefix left over from splitting the label at its first colon (and
the duration also the `" seconds"` suffix), and the transcription
accumulator holds the text with a trailing newline. -/
def parsedPF (r : TranscriptionResult) : PFile :=
  ⟨some r.filename, some ('*' :: '*' :: ' ' :: r.language),
   r.duration.map (fun d => '*' :: '*' :: ' ' :: (d ++ secondsSuffix)),
   some (r.text ++ ['\n'])⟩

/-- The row that batch parsing recovers for a well-formed section: filename
and transcription text come back exactly; language and duration keep the
`"** "` residue of the bold label marker, and duration the `" seconds"`
suffix. -/
def expectedRow (r : TranscriptionResult) : CsvRow :=
  ⟨r.filename, r.text, '*' :: '*' :: ' ' :: r.language,
   match r.duration with
   | some d => '*' :: '*' :: ' ' :: (d ++ secondsSuffix)
   | none => []⟩

instance : DecidablePred TextLineOK := fun l => by
  unfold TextLineOK
  infer_instance

instance : DecidablePred GoodResult := fun r => by
  unfold GoodResult
  infer_instance

/-- The number of lines of a report that begin with the `FILE:` marker. -/
def countFileLines (t : Str) : Nat :=
  (pySplit '\n' t).countP (fun l => startswith fileMarker l)

/-- A concrete recognizer for witnesses: succeeds on `a.wav` and `c.wav`,
fails on anything else. -/
def recogW : Str → Option Str → Except Str RecogOutput := fun p _ =>
  if p = "a.wav".data then .ok ⟨"hello".data, "en".data, some ("1.23".data)⟩
  else if p = "c.wav".data then .ok ⟨"world".data, "en".data, some ("2.50".data)⟩
  else .error ("bad file".data)

theorem startswith_append_self (p r : Str) : startswith p (p ++ r) = true := by
  induction p with
  | nil => rfl
  | cons x xs ih => simp [startswith, ih]

theorem startswith_refl (p : Str) : startswith p p = true := by
  have h := startswith_append_self p []
  simpa using h

/-- If `p` fails to start `a` and `a` fails to start `p`, the two disagree at
some position inside both, so no extension of `a` starts with `p`. -/
theorem startswith_append_false {p a : Str} (b : Str)
    (h1 : startswith p a = false) (h2 : startswith a p = false) :
    startswith p (a ++ b) = false := by
  induction p generalizing a with
  | nil => simp [startswith] at h1
  | cons x xs ih =>
    cases a with
    | nil => simp [startswith] at h2
    | cons y ys =>
      simp only [startswith, Bool.and_eq_false_iff] at h1 h2
      simp only [List.cons_append, startswith, Bool.and_eq_false_iff]
      rcases h1 with h1 | h1
      · left; exact h1
      · rcases h2 with h2 | h2
        · left; rw [beq_eq_false_iff_ne] at h2 ⊢; exact fun hh => h2 hh.symm
        · right; exact ih h1 h2

theorem startswith_length_le {p s : Str} (h : startswith p s = true) :
    p.length ≤ s.length := by
  induction p generalizing s with
  | nil => simp
  | cons x xs ih =>
    cases s with
    | nil => simp [startswith] at h
    | cons y ys =>
      simp only [startswith, Bool.and_eq_true] at h
      simpa using ih h.2

theorem startswith_mono {p a : Str} (b : Str) (h : startswith p a = true) :
    startswith p (a ++ b) = true := by
  induction p generalizing a with
  | nil => rfl
  | cons x xs ih =>
    cases a with
    | nil => simp [startswith] at h
    | cons y ys =>
      simp only [startswith, Bool.and_eq_true] at h
      simp only [List.cons_append, startswith, Bool.and_eq_true]
      exact ⟨h.1, ih h.2⟩

/-- A match running past a character `c` foreign to `p` already matched before
reaching it. -/
theorem startswith_through {c : Char} :
    ∀ (p a b : Str), c ∉ p → startswith p (a ++ c :: b) = true →
      startswith p a = true
  | [], _, _, _, _ => rfl
  | x :: xs, [], b, hc, h => by
    simp only [List.nil_append, startswith, Bool.and_eq_true, beq_iff_eq] at h
    exact absurd (h.1 ▸ List.mem_cons_self x xs) hc
  | x :: xs, y :: ys, b, hc, h => by
    simp only [List.cons_append, startswith, Bool.and_eq_true] at h
    simp only [startswith, Bool.and_eq_true]
    exact ⟨h.1, startswith_through xs ys b
      (fun hm => hc (List.mem_cons_of_mem x hm)) h.2⟩

theorem containsSub_nil_true (s : Str) : containsSub [] s = true := by
  cases s <;> simp [containsSub, startswith]

theorem containsSub_of_startswith {n s : Str} (h : startswith n s = true) :
    containsSub n s = true := by
  cases s with
  | nil =>
    cases n with
    | nil => rfl
    | cons x xs => simp [startswith] at h
  | cons y ys => simp [containsSub, h]

theorem containsSub_append_left {n a : Str} (b : Str) (h : containsSub n a = true) :
    containsSub n (a ++ b) = true := by
  induction a with
  | nil =>
    simp only [containsSub] at h
    cases n with
    | nil => exact containsSub_nil_true b
    | cons x xs => simp [startswith] at h
  | cons y ys ih =>
    simp only [containsSub, Bool.or_eq_true] at h
    simp only [List.cons_append, containsSub, Bool.or_eq_true]
    rcases h with h | h
    · left
      have := startswith_mono (p := n) (a := y :: ys) b h
      simpa using this
    · right; exact ih h

theorem containsSub_append_right {n b : Str} (a : Str) (h : containsSub n b = true) :
    containsSub n (a ++ b) = true := by
  induction a with
  | nil => simpa using h
  | cons y ys ih => simp only [List.cons_append, containsSub, Bool.or_eq_true]; right; exact ih

theorem containsSub_of_append_left {n a b : Str} (h : containsSub n (a ++ b) = false) :
    containsSub n a = false := by
  cases hc : containsSub n a with
  | false => rfl
  | true => rw [containsSub_append_left b hc] at h; exact Bool.noConfusion h

/-- Substring kill across an append whose right part opens with a character
foreign to the needle. -/
theorem containsSub_append_false_head {n a : Str} {c : Char} (b : Str)
    (h1 : containsSub n a = false) (h2 : containsSub n (c :: b) = false)
    (hc : c ∉ n) : containsSub n (a ++ c :: b) = false := by
  induction a with
  | nil => simpa using h2
  | cons y ys ih =>
    simp only [containsSub, Bool.or_eq_false_iff] at h1
    simp only [List.cons_append, containsSub, Bool.or_eq_false_iff]
    refine ⟨?_, ih h1.2⟩
    cases hs : startswith n (y :: ys ++ c :: b) with
    | false => exact hs
    | true =>
      have hst : startswith n (y :: ys) = true :=
        startswith_through n (y :: ys) b hc hs
      rw [hst] at h1
      exact Bool.noConfusion h1.1

/-- Substring kill across an append whose left part closes with a character
foreign to the needle. -/
theorem containsSub_append_false_last {n a : Str} {e : Char} (b : Str)
    (h1 : containsSub n (a ++ [e]) = false) (h2 : containsSub n b = false)
    (he : e ∉ n) : containsSub n ((a ++ [e]) ++ b) = false := by
  have ha : containsSub n a = false := containsSub_of_append_left h1
  have hn : n ≠ [] := by
    intro hnil
    rw [hnil, containsSub_nil_true] at h1
    exact Bool.noConfusion h1
  have heb : containsSub n (e :: b) = false := by
    cases n with
    | nil => exact absurd rfl hn
    | cons x xs =>
      simp only [containsSub, Bool.or_eq_false_iff]
      refine ⟨?_, h2⟩
      simp only [startswith, Bool.and_eq_false_iff]
      left
      rw [beq_eq_false_iff_ne]
      intro hx
      exact he (hx ▸ List.mem_cons_self x xs)
  rw [List.append_assoc, List.singleton_append]
  exact containsSub_append_false_head b ha heb he

/-! ### Lemmas about `pyStrip`, `afterFirst`, `pySplit`, `natStr` -/

/-- A list unchanged by `dropWhile` keeps that property under any extension. -/
theorem dropWhile_self_append {l : Str} (r : Str)
    (h : l.dropWhile isWS = l) (hne : l ≠ []) :
    (l ++ r).dropWhile isWS = l ++ r := by
  cases l with
  | nil => exact absurd rfl hne
  | cons x t =>
    have hx : isWS x = false := by
      cases hx : isWS x with
      | false => rfl
      | true =>
        rw [List.dropWhile_cons, hx, if_pos rfl] at h
        have hlen := (List.dropWhile_sublist (l := t) isWS).length_le
        rw [h] at hlen
        simp at hlen
    rw [List.cons_append, List.dropWhile_cons, hx]
    simp

theorem pyStrip_eq_self_cons {x : Char} {t : Str} (hx : isWS x = false)
    (hr : (x :: t).reverse.dropWhile isWS = (x :: t).reverse) :
    pyStrip (x :: t) = x :: t := by
  unfold pyStrip
  rw [List.dropWhile_cons, hx]
  simp only [Bool.false_eq_true, if_false]
  rw [hr, List.reverse_reverse]

theorem pyStrip_append_newline {t : Str} (h1 : t.dropWhile isWS = t)
    (h2 : t.reverse.dropWhile isWS = t.reverse) (hne : t ≠ []) :
    pyStrip (t ++ ['\n']) = t := by
  unfold pyStrip
  rw [dropWhile_self_append _ h1 hne]
  rw [List.reverse_append]
  simp only [List.reverse_singleton, List.singleton_append]
  rw [List.dropWhile_cons]
  norm_num [isWS]
  rw [h2, List.reverse_reverse]

theorem pyStrip_space_cons {f : Str} (h1 : f.dropWhile isWS = f)
    (h2 : f.reverse.dropWhile isWS = f.reverse) :
    pyStrip (' ' :: f) = f := by
  unfold pyStrip
  rw [List.dropWhile_cons]
  norm_num [isWS]
  rw [h1, h2, List.reverse_reverse]

theorem afterFirst_append {c : Char} {a : Str} (b : Str) (hc : c ∉ a) :
    afterFirst c (a ++ c :: b) = b := by
  induction a with
  | nil => simp [afterFirst]
  | cons x t ih =>
    have hx : x ≠ c := fun h => hc (h ▸ List.mem_cons_self x t)
    simp only [List.cons_append, afterFirst, if_neg hx]
    exact ih (fun hm => hc (List.mem_cons_of_mem x hm))

theorem pySplit_ne_nil (c : Char) : ∀ s : Str, pySplit c s ≠ []
  | [] => by simp [pySplit]
  | a :: t => by
    by_cases hac : a = c
    · simp [pySplit, hac]
    · simp only [pySplit, if_neg hac]
      cases h : pySplit c t with
      | nil => simp
      | cons s ss => simp

theorem pySplit_append_cons {c : Char} {a : Str} (b : Str) (hc : c ∉ a) :
    pySplit c (a ++ c :: b) = a :: pySplit c b := by
  induction a with
  | nil => simp [pySplit]
  | cons x t ih =>
    have hx : x ≠ c := fun h => hc (h ▸ List.mem_cons_self x t)
    have iht := ih (fun hm => hc (List.mem_cons_of_mem x hm))
    simp only [List.cons_append, pySplit, if_neg hx, List.append_eq]
    rw [iht]

theorem pySplit_joinTerm {c : Char} {L : List Str} (h : ∀ l ∈ L, c ∉ l) :
    pySplit c (joinTerm c L) = L ++ [[]] := by
  induction L with
  | nil => simp [joinTerm, pySplit]
  | cons l ls ih =>
    have hl : c ∉ l := h l (List.mem_cons_self l ls)
    have hls := ih (fun x hx => h x (List.mem_cons_of_mem l hx))
    simp only [joinTerm, List.map_cons, List.flatten_cons, List.append_assoc,
      List.singleton_append]
    rw [pySplit_append_cons _ hl]
    simp only [List.cons_append, List.cons.injEq, true_and]
    exact hls

theorem joinTerm_pySplit (c : Char) : ∀ t : Str, joinTerm c (pySplit c t) = t ++ [c]
  | [] => by simp [pySplit, joinTerm]
  | a :: t => by
    have iht := joinTerm_pySplit c t
    by_cases hac : a = c
    · subst hac
      rw [show pySplit a (a :: t) = [] :: pySplit a t from by simp [pySplit]]
      rw [show joinTerm a ([] :: pySplit a t) = a :: joinTerm a (pySplit a t) from by
        simp [joinTerm]]
      rw [iht]
      simp
    · simp only [pySplit, if_neg hac]
      cases h : pySplit c t with
      | nil => exact absurd h (pySplit_ne_nil c t)
      | cons s ss =>
        rw [h] at iht
        simp only [joinTerm, List.map_cons, List.flatten_cons, List.append_assoc,
          List.singleton_append, List.nil_append] at iht ⊢
        simp only [List.cons_append, List.append_assoc, List.nil_append]
        rw [iht]

theorem pySplit_no_sep (c : Char) : ∀ (t : Str), ∀ l ∈ pySplit c t, c ∉ l
  | [], l, hl => by
    simp [pySplit] at hl
    simp [hl]
  | a :: t, l, hl => by
    have iht := pySplit_no_sep c t
    by_cases hac : a = c
    · rw [hac] at hl
      simp only [pySplit, if_pos rfl] at hl
      rcases List.mem_cons.1 hl with h | h
      · simp [h]
      · exact iht l h
    · simp only [pySplit, if_neg hac] at hl
      cases h : pySplit c t with
      | nil => exact absurd h (pySplit_ne_nil c t)
      | cons s ss =>
        rw [h] at hl
        rcases List.mem_cons.1 hl with hh | hh
        · subst hh
          intro hm
          rcases List.mem_cons.1 hm with h1 | h1
          · exact hac h1.symm
          · exact iht s (h ▸ List.mem_cons_self s ss) h1
        · exact iht l (h ▸ List.mem_cons_of_mem s hh)

theorem natStrAux_no_newline : ∀ (fuel n : Nat), '\n' ∉ natStrAux fuel n
  | 0, _ => by simp [natStrAux]
  | fuel + 1, n => by
    have ih := natStrAux_no_newline fuel (n / 10)
    simp only [natStrAux]
    split
    · rename_i hlt
      simp only [List.mem_singleton]
      intro h
      interval_cases n <;> exact absurd h.symm (by decide)
    · simp only [List.mem_append, List.mem_singleton]
      rintro (h | h)
      · exact ih h
      · have hm : n % 10 < 10 := Nat.mod_lt _ (by omega)
        set k := n % 10 with hk
        interval_cases k <;> exact absurd h.symm (by decide)

theorem natStr_no_newline (n : Nat) : '\n' ∉ natStr n :=
  natStrAux_no_newline (n + 1) n

/-! ### Line-level view of the batch report -/

theorem flatten_map_newline (t : Str) :
    (List.map (fun l => l ++ ['\n']) (pySplit '\n' t)).flatten = t ++ ['\n'] :=
  joinTerm_pySplit '\n' t

theorem joinTerm_append (c : Char) (A B : List Str) :
    joinTerm c (A ++ B) = joinTerm c A ++ joinTerm c B := by
  simp [joinTerm]

/-- Rendering the lines of one section reproduces the section string the
handler concatenates. -/
theorem joinTerm_secLines (m : Str) (r : TranscriptionResult) :
    joinTerm '\n' (secLines m r) = batch_section (result_item m r) := by
  cases hd : r.duration with
  | none =>
    simp [secLines, batch_section, result_item, details_output, durLines, hd,
      joinTerm, flatten_map_newline, List.append_assoc]
  | some d =>
    simp [secLines, batch_section, result_item, details_output, durLines, hd,
      joinTerm, flatten_map_newline, List.append_assoc]

theorem joinTerm_sections (m : Str) : ∀ rs : List TranscriptionResult,
    joinTerm '\n' ((rs.map (secLines m)).flatten) =
      ((rs.map (result_item m)).map batch_section).flatten
  | [] => by simp [joinTerm]
  | r :: rs => by
    simp only [List.map_cons, List.flatten_cons, joinTerm_append]
    rw [joinTerm_secLines, joinTerm_sections m rs]

/-- The batch report is exactly its lines, each newline-terminated. -/
theorem format_results_eq_joinTerm (m : Str) (rs : List TranscriptionResult) :
    format_results m rs = joinTerm '\n' (fmtLines m rs) := by
  simp only [fmtLines, joinTerm, List.map_cons, List.flatten_cons, List.nil_append,
    List.singleton_append]
  rw [show (List.map (fun l => l ++ ['\n']) (List.map (secLines m) rs).flatten).flatten
      = joinTerm '\n' ((rs.map (secLines m)).flatten) from rfl]
  rw [joinTerm_sections]
  simp [format_results, format_batch, List.append_assoc]

/-! ### Non-adversarial content -/

theorem secLines_no_newline {m : Str} {r : TranscriptionResult}
    (hm : '\n' ∉ m) (hr : GoodResult r) : ∀ l ∈ secLines m r, '\n' ∉ l := by
  obtain ⟨hf, -, -, hl, -, -, hd, -, -, -⟩ := hr
  have hfile : '\n' ∉ fileMarkerSp ++ r.filename := by
    simp only [List.mem_append]
    rintro (h | h)
    · exact absurd h (by decide)
    · exact hf h
  have hdl : '\n' ∉ dlLabelFull ++ r.language := by
    simp only [List.mem_append]
    rintro (h | h)
    · exact absurd h (by decide)
    · exact hl h
  have hmu : '\n' ∉ muLabelFull ++ m := by
    simp only [List.mem_append]
    rintro (h | h)
    · exact absurd h (by decide)
    · exact hm h
  have hdur : ∀ l ∈ durLines r.duration, '\n' ∉ l := by
    cases hdu : r.duration with
    | none => simp [durLines]
    | some dd =>
      rw [hdu, Option.getD_some] at hd
      simp only [durLines, List.forall_mem_singleton, List.append_assoc, List.mem_append]
      rintro (h | h | h)
      · exact absurd h (by decide)
      · exact hd h
      · exact absurd h (by decide)
  have htext : ∀ l ∈ pySplit '\n' r.text, '\n' ∉ l :=
    fun l h => pySplit_no_sep '\n' r.text l h
  simp only [secLines, List.forall_mem_cons, List.forall_mem_append]
  exact ⟨hfile, by decide, htext, by simp, hdl, hmu, hdur, by decide⟩

theorem fmtLines_no_newline {m : Str} {rs : List TranscriptionResult}
    (hm : '\n' ∉ m) (hrs : ∀ r ∈ rs, GoodResult r) :
    ∀ l ∈ fmtLines m rs, '\n' ∉ l := by
  have hsummary : '\n' ∉ summary_line rs.length := by
    simp only [summary_line, List.append_assoc, List.mem_append]
    rintro (hc | hc | hc)
    · exact absurd hc (by decide)
    · exact natStr_no_newline rs.length hc
    · exact absurd hc (by decide)
  simp only [fmtLines, List.forall_mem_cons]
  refine ⟨hsummary, by simp, ?_⟩
  intro l hmem
  rw [List.mem_flatten] at hmem
  obtain ⟨ls, hls, hl⟩ := hmem
  rw [List.mem_map] at hls
  obtain ⟨r, hrmem, hrl⟩ := hls
  exact secLines_no_newline hm (hrs r hrmem) l (hrl ▸ hl)

/-- Splitting the batch report on newlines recovers exactly its line list,
plus the final empty piece after the trailing newline. -/
theorem pySplit_format_results {m : Str} {rs : List TranscriptionResult}
    (hm : '\n' ∉ m) (hrs : ∀ r ∈ rs, GoodResult r) :
    pySplit '\n' (format_results m rs) = fmtLines m rs ++ [[]] := by
  rw [format_results_eq_joinTerm]
  exact pySplit_joinTerm (fmtLines_no_newline hm hrs)

/-! ### Evaluating one parsing-loop step on each line shape -/

theorem fileMarkerSp_eq : fileMarkerSp = fileMarker ++ [' '] := by decide

theorem dlLabelFull_eq : dlLabelFull = dlLabel ++ ('*' :: '*' :: [' ']) := by decide

theorem dlLabelFull_colon :
    dlLabelFull = "**Detected Language".data ++ ':' :: ('*' :: '*' :: [' ']) := by decide

theorem durLabelFull_eq : durLabelFull = durLabel ++ ('*' :: '*' :: [' ']) := by decide

theorem durLabelFull_colon :
    durLabelFull = "**Duration".data ++ ':' :: ('*' :: '*' :: [' ']) := by decide

theorem processedPre_eq : processedPre = summaryPre ++ [' '] := by decide

theorem parse_line_file (res : List PFile) (cur : PFile) (f : Str)
    (h1 : f.dropWhile isWS = f) (h2 : f.reverse.dropWhile isWS = f.reverse) :
    parse_line (res, cur) (fileMarkerSp ++ f) =
      ((if pfIsEmpty cur then res else res ++ [cur]), ⟨some f, none, none, none⟩) := by
  have hsw : startswith fileMarker (fileMarkerSp ++ f) = true := by
    rw [fileMarkerSp_eq, List.append_assoc]
    exact startswith_append_self _ _
  have hdrop : (fileMarkerSp ++ f).drop 5 = ' ' :: f := by
    rw [show fileMarkerSp = 'F' :: 'I' :: 'L' :: 'E' :: ':' :: [' '] from by decide]
    rfl
  simp only [parse_line, hsw, if_true]
  rw [hdrop, pyStrip_space_cons h1 h2]

theorem parse_line_dl (res : List PFile) (cur : PFile) (l : Str)
    (hne : l ≠ []) (h2 : l.reverse.dropWhile isWS = l.reverse) :
    parse_line (res, cur) (dlLabelFull ++ l) =
      (res, { cur with language := some ('*' :: '*' :: ' ' :: l) }) := by
  have hfm : startswith fileMarker (dlLabelFull ++ l) = false :=
    startswith_append_false _ (by decide) (by decide)
  have hdl : startswith dlLabel (dlLabelFull ++ l) = true := by
    rw [dlLabelFull_eq, List.append_assoc]
    exact startswith_append_self _ _
  have haf : afterFirst ':' (dlLabelFull ++ l) = '*' :: '*' :: ' ' :: l := by
    rw [dlLabelFull_colon]
    rw [show ("**Detected Language".data ++ ':' :: ('*' :: '*' :: [' '])) ++ l
        = "**Detected Language".data ++ ':' :: ('*' :: '*' :: ' ' :: l) from by simp]
    exact afterFirst_append _ (by decide)
  have hstrip : pyStrip ('*' :: '*' :: ' ' :: l) = '*' :: '*' :: ' ' :: l := by
    apply pyStrip_eq_self_cons (by decide)
    rw [show ('*' :: '*' :: ' ' :: l).reverse = l.reverse ++ [' ', '*', '*'] from by simp]
    apply dropWhile_self_append _ h2
    simp [hne]
  simp only [parse_line, hfm, hdl, haf, hstrip, Bool.false_eq_true, if_false, if_true]

theorem parse_line_dur (res : List PFile) (cur : PFile) (d : Str) :
    parse_line (res, cur) (durLabelFull ++ d ++ secondsSuffix) =
      (res, { cur with duration := some ('*' :: '*' :: ' ' :: (d ++ secondsSuffix)) }) := by
  have hfm : startswith fileMarker ((durLabelFull ++ d) ++ secondsSuffix) = false := by
    rw [List.append_assoc]
    exact startswith_append_false _ (by decide) (by decide)
  have hdl : startswith dlLabel ((durLabelFull ++ d) ++ secondsSuffix) = false := by
    rw [List.append_assoc]
    exact startswith_append_false _ (by decide) (by decide)
  have hdu : startswith durLabel ((durLabelFull ++ d) ++ secondsSuffix) = true := by
    rw [List.append_assoc, durLabelFull_eq, List.append_assoc]
    exact startswith_append_self _ _
  have haf : afterFirst ':' ((durLabelFull ++ d) ++ secondsSuffix) =
      '*' :: '*' :: ' ' :: (d ++ secondsSuffix) := by
    rw [List.append_assoc, durLabelFull_colon]
    rw [show ("**Duration".data ++ ':' :: ('*' :: '*' :: [' '])) ++ (d ++ secondsSuffix)
        = "**Duration".data ++ ':' :: ('*' :: '*' :: ' ' :: (d ++ secondsSuffix)) from by simp]
    exact afterFirst_append _ (by decide)
  have hstrip : pyStrip ('*' :: '*' :: ' ' :: (d ++ secondsSuffix)) =
      '*' :: '*' :: ' ' :: (d ++ secondsSuffix) := by
    apply pyStrip_eq_self_cons (by decide)
    rw [show ('*' :: '*' :: ' ' :: (d ++ secondsSuffix)).reverse
        = secondsSuffix.reverse ++ (d.reverse ++ [' ', '*', '*']) from by simp]
    apply dropWhile_self_append _ (by decide)
    decide
  simp only [parse_line, hfm, hdl, hdu, haf, hstrip, Bool.false_eq_true, if_false, if_true]

theorem parse_line_mu (res : List PFile) (cur : PFile) (mn : Str) :
    parse_line (res, cur) (muLabelFull ++ mn) = (res, cur) := by
  have hfm : startswith fileMarker (muLabelFull ++ mn) = false :=
    startswith_append_false _ (by decide) (by decide)
  have hdl : startswith dlLabel (muLabelFull ++ mn) = false :=
    startswith_append_false _ (by decide) (by decide)
  have hdu : startswith durLabel (muLabelFull ++ mn) = false :=
    startswith_append_false _ (by decide) (by decide)
  have hsum : startswith summaryPre (muLabelFull ++ mn) = false :=
    startswith_append_false _ (by decide) (by decide)
  have hdel : startswith delim (muLabelFull ++ mn) = false :=
    startswith_append_false _ (by decide) (by decide)
  have hss : startswith starStar (muLabelFull ++ mn) = true := by
    rw [show muLabelFull = starStar ++ "Model Used:** ".data from by decide, List.append_assoc]
    exact startswith_append_self _ _
  simp only [parse_line, hfm, hdl, hdu, hsum, hdel, hss, Bool.false_eq_true, if_false,
    Bool.not_true, Bool.false_and, Bool.and_false]

theorem parse_line_trans_label (res : List PFile) (cur : PFile) :
    parse_line (res, cur) transLabel = (res, cur) := by
  simp only [parse_line,
    (by decide : startswith fileMarker transLabel = false),
    (by decide : startswith dlLabel transLabel = false),
    (by decide : startswith durLabel transLabel = false),
    (by decide : startswith summaryPre transLabel = false),
    (by decide : startswith delim transLabel = false),
    (by decide : startswith starStar transLabel = true),
    Bool.false_eq_true, if_false, Bool.not_true, Bool.false_and, Bool.and_false]

theorem parse_line_empty (res : List PFile) (cur : PFile) :
    parse_line (res, cur) [] = (res, cur) := by
  simp only [parse_line,
    (by decide : startswith fileMarker [] = false),
    (by decide : startswith dlLabel [] = false),
    (by decide : startswith durLabel [] = false),
    (by decide : startswith summaryPre [] = false),
    (by decide : startswith delim [] = false),
    (by decide : (pyStrip []).isEmpty = true),
    Bool.false_eq_true, if_false, Bool.not_true, Bool.and_false]

theorem parse_line_summary (res : List PFile) (cur : PFile) (n : Nat) :
    parse_line (res, cur) (summary_line n) = (res, cur) := by
  have hfm : startswith fileMarker (summary_line n) = false := by
    rw [summary_line, List.append_assoc]
    exact startswith_append_false _ (by decide) (by decide)
  have hdl : startswith dlLabel (summary_line n) = false := by
    rw [summary_line, List.append_assoc]
    exact startswith_append_false _ (by decide) (by decide)
  have hdu : startswith durLabel (summary_line n) = false := by
    rw [summary_line, List.append_assoc]
    exact startswith_append_false _ (by decide) (by decide)
  have hsum : startswith summaryPre (summary_line n) = true := by
    rw [summary_line, processedPre_eq, List.append_assoc, List.append_assoc]
    exact startswith_append_self _ _
  simp only [parse_line, hfm, hdl, hdu, hsum, Bool.false_eq_true, if_false, if_true]

theorem parse_line_delim (res : List PFile) (cur : PFile) :
    parse_line (res, cur) delim =
      (if pfIsEmpty cur then (res, cur)
       else (res ++ [{ cur with transcription := some (cur.transcription.getD []) }],
             ⟨none, none, none, none⟩)) := by
  simp only [parse_line,
    (by decide : startswith fileMarker delim = false),
    (by decide : startswith dlLabel delim = false),
    (by decide : startswith durLabel delim = false),
    (by decide : startswith summaryPre delim = false),
    startswith_refl delim,
    Bool.false_eq_true, if_false, if_true]

theorem parse_line_text (res : List PFile) (cur : PFile) (l : Str)
    (hok : TextLineOK l) (hcur : pfIsEmpty cur = false) :
    parse_line (res, cur) l =
      (res, { cur with transcription := some (cur.transcription.getD [] ++ l ++ ['\n']) }) := by
  obtain ⟨h1, h2, h3, h4, h5, h6, h7⟩ := hok
  simp only [parse_line, h1, h2, h3, h4, h5, h6, h7, hcur, Bool.false_eq_true, if_false,
    Bool.not_false, Bool.true_and, Bool.and_true, if_true]

/-! ### Folding the parsing loop over a formatted report -/

theorem text_fold : ∀ (ls : List Str) (res : List PFile) (fn acc : Str),
    (∀ l ∈ ls, TextLineOK l) →
    List.foldl parse_line (res, ⟨some fn, none, none, some acc⟩) ls
      = (res, ⟨some fn, none, none, some (acc ++ joinTerm '\n' ls)⟩)
  | [], res, fn, acc, _ => by simp [joinTerm]
  | l :: ls, res, fn, acc, h => by
    rw [List.foldl_cons,
      parse_line_text res ⟨some fn, none, none, some acc⟩ l
        (h l (List.mem_cons_self _ _)) rfl]
    simp only [Option.getD_some]
    rw [text_fold ls res fn (acc ++ l ++ ['\n'])
      (fun x hx => h x (List.mem_cons_of_mem l hx))]
    simp [joinTerm, List.append_assoc]

theorem section_fold (m : Str) (r : TranscriptionResult) (hr : GoodResult r)
    (res : List PFile) (rest : List Str) :
    List.foldl parse_line (res, ⟨none, none, none, none⟩) (secLines m r ++ rest)
      = List.foldl parse_line (res ++ [parsedPF r], ⟨none, none, none, none⟩) rest := by
  obtain ⟨hf, hf1, hf2, hl, hlne, hl2, hd, ht1, ht2, htok⟩ := hr
  obtain ⟨l₀, lrest, hsplit⟩ : ∃ a b, pySplit '\n' r.text = a :: b := by
    cases h : pySplit '\n' r.text with
    | nil => exact absurd h (pySplit_ne_nil _ _)
    | cons a b => exact ⟨a, b, rfl⟩
  have htxt : (l₀ ++ ['\n']) ++ joinTerm '\n' lrest = r.text ++ ['\n'] := by
    have hj := joinTerm_pySplit '\n' r.text
    rw [hsplit] at hj
    simpa [joinTerm] using hj
  have htok0 : TextLineOK l₀ := htok l₀ (hsplit ▸ List.mem_cons_self _ _)
  have htokr : ∀ x ∈ lrest, TextLineOK x :=
    fun x hx => htok x (hsplit ▸ List.mem_cons_of_mem l₀ hx)
  simp only [secLines, hsplit, List.cons_append, List.append_assoc]
  rw [List.foldl_cons, parse_line_file res _ r.filename hf1 hf2]
  rw [show pfIsEmpty ⟨none, none, none, none⟩ = true from rfl, if_pos rfl]
  rw [List.foldl_cons, parse_line_trans_label]
  rw [List.foldl_cons,
    parse_line_text res ⟨some r.filename, none, none, none⟩ l₀ htok0 rfl]
  simp only [Option.getD_none, List.nil_append]
  rw [List.foldl_append]
  rw [text_fold lrest res r.filename (l₀ ++ ['\n']) htokr]
  rw [htxt]
  rw [List.foldl_cons, parse_line_empty]
  rw [List.foldl_cons, parse_line_dl res _ r.language hlne hl2]
  simp only []
  rw [List.foldl_cons, parse_line_mu]
  cases hdur : r.duration with
  | none =>
    simp only [durLines, List.nil_append]
    rw [List.foldl_cons, parse_line_empty]
    rw [List.foldl_cons, parse_line_empty]
    rw [List.foldl_cons, parse_line_delim]
    rw [show pfIsEmpty ⟨some r.filename, some ('*' :: '*' :: ' ' :: r.language), none,
        some (r.text ++ ['\n'])⟩ = false from rfl, if_neg (by simp)]
    simp only [Option.getD_some]
    rw [List.foldl_cons, parse_line_empty]
    simp [parsedPF, hdur]
  | some d =>
    simp only [durLines, List.cons_append, List.append_assoc, List.singleton_append]
    rw [show durLabelFull ++ (d ++ secondsSuffix) = durLabelFull ++ d ++ secondsSuffix from
      (List.append_assoc _ _ _).symm]
    rw [List.foldl_cons, parse_line_dur]
    simp only [List.nil_append]
    rw [List.foldl_cons, parse_line_empty]
    rw [List.foldl_cons, parse_line_empty]
    rw [List.foldl_cons, parse_line_delim]
    rw [show pfIsEmpty ⟨some r.filename, some ('*' :: '*' :: ' ' :: r.language),
        some ('*' :: '*' :: ' ' :: (d ++ secondsSuffix)),
        some (r.text ++ ['\n'])⟩ = false from rfl, if_neg (by simp)]
    simp only [Option.getD_some]
    rw [List.foldl_cons, parse_line_empty]
    simp [parsedPF, hdur]

theorem records_fold (m : Str) : ∀ (rs : List TranscriptionResult)
    (res : List PFile) (rest : List Str), (∀ r ∈ rs, GoodResult r) →
    List.foldl parse_line (res, ⟨none, none, none, none⟩)
        ((rs.map (secLines m)).flatten ++ rest)
      = List.foldl parse_line (res ++ rs.map parsedPF, ⟨none, none, none, none⟩) rest
  | [], res, rest, _ => by simp
  | r :: rs, res, rest, h => by
    simp only [List.map_cons, List.flatten_cons, List.append_assoc]
    rw [section_fold m r (h r (List.mem_cons_self _ _)) res]
    rw [records_fold m rs (res ++ [parsedPF r]) rest
      (fun x hx => h x (List.mem_cons_of_mem r hx))]
    simp

theorem good_text_ne_nil {r : TranscriptionResult} (hr : GoodResult r) :
    r.text ≠ [] := by
  intro h
  obtain ⟨-, -, -, -, -, -, -, -, -, htok⟩ := hr
  have h0 : TextLineOK [] := by
    apply htok
    rw [h]
    simp [pySplit]
  obtain ⟨-, -, -, -, -, -, h7⟩ := h0
  exact absurd h7 (by decide)

theorem pfRow_parsedPF {r : TranscriptionResult} (hr : GoodResult r) :
    pfRow (parsedPF r) = expectedRow r := by
  have htne := good_text_ne_nil hr
  obtain ⟨-, -, -, -, -, -, -, ht1, ht2, -⟩ := hr
  simp only [pfRow, parsedPF, expectedRow, Option.getD_some]
  rw [pyStrip_append_newline ht1 ht2 htne]
  cases r.duration <;> simp

theorem parse_batch_records_format {m : Str} {rs : List TranscriptionResult}
    (hm : '\n' ∉ m) (hrs : ∀ r ∈ rs, GoodResult r) :
    parse_batch_records (format_results m rs) = rs.map parsedPF := by
  unfold parse_batch_records parse_lines
  rw [pySplit_format_results hm hrs]
  simp only [fmtLines, List.cons_append]
  rw [List.foldl_cons, parse_line_summary]
  rw [List.foldl_cons, parse_line_empty]
  rw [records_fold m rs [] [[]] hrs]
  rw [List.foldl_cons, parse_line_empty]
  simp

theorem parse_batch_rows_format {m : Str} {rs : List TranscriptionResult}
    (hm : '\n' ∉ m) (hrs : ∀ r ∈ rs, GoodResult r) :
    parse_batch_rows (format_results m rs) = rs.map expectedRow := by
  unfold parse_batch_rows
  rw [parse_batch_records_format hm hrs, List.map_map]
  apply List.map_congr_left
  intro r hrmem
  exact pfRow_parsedPF (hrs r hrmem)

/-! ### Claim C1: round-trip of the batch report -/

/-- C1 (counterexample): at the concrete input named by the claim (results
`a.wav`/`hello`/`en`/`1.23` and `b.wav`/`world`/`en`/`2.50`), parsing the
formatted batch report does NOT recover language `"en"` and durations
`"1.23"`/`"2.50"`: the parser splits `"**Detected Language:** en"` at its
first colon, so the recovered language is `"** en"` and the recovered
duration `"** 1.23 seconds"`.  The round-trip law as stated is false. -/
theorem c1_round_trip_counterexample :
    parse_batch_rows (format_results ("base".data)
      [⟨"a.wav".data, "hello".data, "en".data, some ("1.23".data)⟩,
       ⟨"b.wav".data, "world".data, "en".data, some ("2.50".data)⟩])
    = [⟨"a.wav".data, "hello".data, "** en".data, "** 1.23 seconds".data⟩,
       ⟨"b.wav".data, "world".data, "** en".data, "** 2.50 seconds".data⟩] ∧
    ("** en".data : Str) ≠ "en".data ∧ ("** 1.23 seconds".data : Str) ≠ "1.23".data := by
  decide

/-- C1 (amended): for every list of results with non-adversarial content
(newline-free fields, strip-invariant filename and text, non-empty language
with no trailing whitespace, and text lines that are non-blank and do not
begin with `**`, `FILE:`, the delimiter or the summary marker), parsing the
formatted batch report recovers the filename and transcription
text exactly, while the detected language comes back as `"** "` + language
and the duration as `"** "` + duration + `" seconds"` — the residue of
splitting the label line at its first colon. -/
theorem c1_round_trip (m : Str) (rs : List TranscriptionResult)
    (hm : '\n' ∉ m) (hrs : ∀ r ∈ rs, GoodResult r) :
    parse_batch_rows (format_results m rs) = rs.map expectedRow :=
  parse_batch_rows_format hm hrs

/-- C1 (witness): the amended round trip evaluated at the concrete
two-record input named by the claim. -/
theorem c1_round_trip_witness :
    ('\n' ∉ ("base".data : Str)) ∧
    (∀ r ∈ [(⟨"a.wav".data, "hello".data, "en".data, some ("1.23".data)⟩ : TranscriptionResult),
            ⟨"b.wav".data, "world".data, "en".data, some ("2.50".data)⟩], GoodResult r) ∧
    parse_batch_rows (format_results ("base".data)
      [⟨"a.wav".data, "hello".data, "en".data, some ("1.23".data)⟩,
       ⟨"b.wav".data, "world".data, "en".data, some ("2.50".data)⟩])
    = [(⟨"a.wav".data, "hello".data, "en".data, some ("1.23".data)⟩ : TranscriptionResult),
       ⟨"b.wav".data, "world".data, "en".data, some ("2.50".data)⟩].map expectedRow :=
  ⟨by decide, by decide, c1_round_trip ("base".data) _ (by decide) (by decide)⟩

/-! ### Claim C2: export no-op on empty data -/

/-- C2: `export_transcription` on the empty transcription returns none and
creates no file, as claimed; but `export_batch_results` on the EMPTY LIST
does create a file — a header-only CSV — and returns its path, because the
emptiness guard only recognizes objects exposing a truthy attribute named
empty, which a Python list never has.  This contradicts the batch half of
the claim. -/
theorem c2_export_empty :
    export_transcription ("20250101_000000".data) [] = none ∧
    export_batch_results (some []) = some (csvHeader ++ ['\n']) ∧
    export_batch_results (some []) ≠ none := by
  decide

/-! ### Claim C3: how the parser treats an unterminated trailing record -/

theorem parse_line_file_raw (res : List PFile) (cur : PFile) (f : Str) :
    parse_line (res, cur) (fileMarkerSp ++ f) =
      ((if pfIsEmpty cur then res else res ++ [cur]),
        ⟨some (pyStrip (' ' :: f)), none, none, none⟩) := by
  have hsw : startswith fileMarker (fileMarkerSp ++ f) = true := by
    rw [fileMarkerSp_eq, List.append_assoc]
    exact startswith_append_self _ _
  have hdrop : (fileMarkerSp ++ f).drop 5 = ' ' :: f := by
    rw [show fileMarkerSp = 'F' :: 'I' :: 'L' :: 'E' :: ':' :: [' '] from by decide]
    rfl
  simp only [parse_line, hsw, if_true]
  rw [hdrop]

theorem parse_line_fst (st : List PFile × PFile) (l : Str)
    (h1 : startswith fileMarker l = false) (h5 : startswith delim l = false) :
    (parse_line st l).1 = st.1 := by
  obtain ⟨res, cur⟩ := st
  simp only [parse_line, h1, h5, Bool.false_eq_true, if_false]
  split_ifs <;> rfl

theorem no_flush_fold : ∀ (lines : List Str) (st : List PFile × PFile),
    (∀ l ∈ lines, startswith fileMarker l = false ∧ startswith delim l = false) →
    (List.foldl parse_line st lines).1 = st.1
  | [], _, _ => rfl
  | l :: ls, st, h => by
    rw [List.foldl_cons]
    rw [no_flush_fold ls _ (fun x hx => h x (List.mem_cons_of_mem l hx))]
    exact parse_line_fst st l (h l (List.mem_cons_self _ _)).1
      (h l (List.mem_cons_self _ _)).2

/-- C3 (counterexample): a batch text whose final `FILE:` section is not
terminated by a delimiter line.  The parser DISCARDS the open record
(`b.wav` / `world`): the output contains only the `a.wav` record, refuting
the claim that the open record is flushed to the output at end of input. -/
theorem c3_flush_counterexample :
    parse_batch_rows ("FILE: a.wav\nhello\n".data ++ delim ++ "\nFILE: b.wav\nworld".data)
      = [⟨"a.wav".data, "hello".data, [], []⟩] ∧
    (∀ row ∈ parse_batch_rows
        ("FILE: a.wav\nhello\n".data ++ delim ++ "\nFILE: b.wav\nworld".data),
      row.filename ≠ "b.wav".data) ∧
    containsSub fileMarker
        ("FILE: a.wav\nhello\n".data ++ delim ++ "\nFILE: b.wav\nworld".data) = true ∧
    containsSub delim
        ("FILE: a.wav\nhello\n".data ++ delim ++ "\nFILE: b.wav\nworld".data) = true := by
  decide

/-- C3 (amended): at end of input an open record is DISCARDED, never
flushed: appending an unterminated trailing `FILE:` section (whose following
lines contain no `FILE:` or delimiter line start) to any line sequence that
ends with no record open leaves the parsed output unchanged. -/
theorem c3_open_record_discarded (L rest : List Str) (f : Str)
    (hL : (L.foldl parse_line ([], ⟨none, none, none, none⟩)).2
        = ⟨none, none, none, none⟩)
    (hrest : ∀ l ∈ rest, startswith fileMarker l = false ∧
        startswith delim l = false) :
    parse_lines (L ++ (fileMarkerSp ++ f) :: rest) = parse_lines L := by
  unfold parse_lines
  rw [List.foldl_append]
  rcases hfold : L.foldl parse_line ([], ⟨none, none, none, none⟩) with ⟨res, cur⟩
  rw [hfold] at hL
  simp only at hL
  subst hL
  rw [List.foldl_cons, parse_line_file_raw]
  rw [show pfIsEmpty ⟨none, none, none, none⟩ = true from rfl, if_pos rfl]
  rw [no_flush_fold rest _ hrest]

/-- C3 (witness): the amended statement evaluated on a concrete terminated
record followed by a concrete unterminated one. -/
theorem c3_open_record_discarded_witness :
    ((["FILE: a.wav".data, "hello".data, delim].foldl parse_line
        ([], ⟨none, none, none, none⟩)).2 = ⟨none, none, none, none⟩) ∧
    (∀ l ∈ ["world".data], startswith fileMarker l = false ∧
        startswith delim l = false) ∧
    parse_lines (["FILE: a.wav".data, "hello".data, delim] ++
        (fileMarkerSp ++ "b.wav".data) :: ["world".data])
      = parse_lines ["FILE: a.wav".data, "hello".data, delim] :=
  ⟨by decide, by decide,
   c3_open_record_discarded _ _ _ (by decide) (by decide)⟩

/-! ### Claim C4: single-vs-batch classification -/

theorem containsSub_cons_false {n : Str} {c : Char} (X : Str)
    (hc : c ∉ n) (hn : n ≠ []) (h : containsSub n X = false) :
    containsSub n (c :: X) = false := by
  cases n with
  | nil => exact absurd rfl hn
  | cons y ys =>
    simp only [containsSub, Bool.or_eq_false_iff]
    refine ⟨?_, h⟩
    simp only [startswith, Bool.and_eq_false_iff]
    left
    rw [beq_eq_false_iff_ne]
    intro hyc
    exact hc (hyc ▸ List.mem_cons_self y ys)

/-- Substring kill across an append whose left part is known to close with a
given character foreign to the needle. -/
theorem containsSub_append_false_left {n a : Str} (b a0 : Str) (e : Char)
    (ha : a = a0 ++ [e]) (h1 : containsSub n a = false)
    (h2 : containsSub n b = false) (he : e ∉ n) :
    containsSub n (a ++ b) = false := by
  subst ha
  exact containsSub_append_false_last b h1 h2 he

/-- The single-file report contains no `FILE:` substring as long as none of
the free fields contains one: `FILE:` cannot straddle any boundary because
every boundary either opens with a newline or closes with a space or
asterisk, none of which occur in `FILE:`. -/
theorem details_no_fileMarker (t l mn : Str) (d : Option Str)
    (ht : containsSub fileMarker t = false)
    (hl : containsSub fileMarker l = false)
    (hmn : containsSub fileMarker mn = false)
    (hd : containsSub fileMarker (d.getD []) = false) :
    containsSub fileMarker (details_output t l mn d) = false := by
  cases d with
  | none =>
    have hsh : details_output t l mn none = transLabel ++ ('\n' :: (t ++ ('\n' :: ('\n' :: (dlLabelFull ++ (l ++ ('\n' :: (muLabelFull ++ (mn ++ ('\n' :: ([] : Str))))))))))) := by
      simp [details_output, List.append_assoc]
    rw [hsh]
    refine containsSub_append_false_left _ ("**Transcription:*".data) '*'
      (by decide) (by decide) ?_ (by decide)
    refine containsSub_cons_false _ (by decide) (by decide) ?_
    refine containsSub_append_false_head _ ht ?_ (by decide)
    refine containsSub_cons_false _ (by decide) (by decide) ?_
    refine containsSub_cons_false _ (by decide) (by decide) ?_
    refine containsSub_append_false_left _ ("**Detected Language:**".data) ' '
      (by decide) (by decide) ?_ (by decide)
    refine containsSub_append_false_head _ hl ?_ (by decide)
    refine containsSub_cons_false _ (by decide) (by decide) ?_
    refine containsSub_append_false_left _ ("**Model Used:**".data) ' '
      (by decide) (by decide) ?_ (by decide)
    refine containsSub_append_false_head _ hmn ?_ (by decide)
    decide
  | some dd =>
    simp only [Option.getD_some] at hd
    have hsh : details_output t l mn (some dd) = transLabel ++ ('\n' :: (t ++ ('\n' :: ('\n' :: (dlLabelFull ++ (l ++ ('\n' :: (muLabelFull ++ (mn ++ ('\n' :: (durLabelFull ++ (dd ++ (secondsSuffix ++ (['\n'] : Str)))))))))))))) := by
      simp [details_output, List.append_assoc]
    rw [hsh]
    refine containsSub_append_false_left _ ("**Transcription:*".data) '*'
      (by decide) (by decide) ?_ (by decide)
    refine containsSub_cons_false _ (by decide) (by decide) ?_
    refine containsSub_append_false_head _ ht ?_ (by decide)
    refine containsSub_cons_false _ (by decide) (by decide) ?_
    refine containsSub_cons_false _ (by decide) (by decide) ?_
    refine containsSub_append_false_left _ ("**Detected Language:**".data) ' '
      (by decide) (by decide) ?_ (by decide)
    refine containsSub_append_false_head _ hl ?_ (by decide)
    refine containsSub_cons_false _ (by decide) (by decide) ?_
    refine containsSub_append_false_left _ ("**Model Used:**".data) ' '
      (by decide) (by decide) ?_ (by decide)
    refine containsSub_append_false_head _ hmn ?_ (by decide)
    refine containsSub_cons_false _ (by decide) (by decide) ?_
    refine containsSub_append_false_left _ ("**Duration:**".data) ' '
      (by decide) (by decide) ?_ (by decide)
    rw [show secondsSuffix ++ (['\n'] : Str) = ' ' :: ("seconds\n".data : Str)
      from by decide]
    exact containsSub_append_false_head _ hd (by decide) (by decide)

/-- C4 (counterexample): the claim quantifies over EVERY result with no
filename, but a result whose transcription text itself contains a `FILE:`
line and a 50-hyphen delimiter makes the single-file report classify as a
batch report, not single — classification is substring-based, not
line-based. -/
theorem c4_classification_counterexample :
    classify (details_output ("FILE: x\n".data ++ delim) ("en".data) ("base".data) none)
      = ExportKind.batch ∧
    classify (details_output ("FILE: x\n".data ++ delim) ("en".data) ("base".data) none)
      ≠ ExportKind.single := by
  decide

/-- C4 (amended): classification treats a non-empty text as a batch report
exactly when it contains `FILE:` AND the 50-hyphen delimiter as substrings
(anywhere, not only at line starts); and the single-file report of any
result whose transcription text, detected language, model name and duration
do not contain `FILE:` as a substring is classified as single. -/
theorem c4_classification :
    (∀ t : Str, t ≠ [] →
      (classify t = ExportKind.batch ↔
        (containsSub fileMarker t = true ∧ containsSub delim t = true))) ∧
    (∀ (t l mn : Str) (d : Option Str),
      containsSub fileMarker t = false → containsSub fileMarker l = false →
      containsSub fileMarker mn = false → containsSub fileMarker (d.getD []) = false →
      classify (details_output t l mn d) = ExportKind.single) := by
  constructor
  · intro t ht
    have hie : t.isEmpty = false := by
      cases t with
      | nil => exact absurd rfl ht
      | cons a b => rfl
    unfold classify
    rw [hie]
    simp only [Bool.false_eq_true, if_false]
    by_cases hc : (containsSub fileMarker t && containsSub delim t) = true
    · rw [if_pos hc]
      simp only [Bool.and_eq_true] at hc
      simp [hc]
    · rw [if_neg hc]
      simp only [Bool.and_eq_true] at hc
      constructor
      · intro h; exact absurd h (by decide)
      · intro hb; exact absurd hb hc
  · intro t l mn d h1 h2 h3 h4
    have hno := details_no_fileMarker t l mn d h1 h2 h3 h4
    have hne : (details_output t l mn d).isEmpty = false := by
      unfold details_output
      rw [show transLabel = '*' :: "*Transcription:**".data from by decide]
      simp
    unfold classify
    rw [hne, hno]
    simp

/-- C4 (witness): the amended classification evaluated at concrete inputs. -/
theorem c4_classification_witness :
    classify (details_output ("hello".data) ("en".data) ("base".data)
        (some ("1.23".data))) = ExportKind.single ∧
    (classify ("abc".data) = ExportKind.batch ↔
      (containsSub fileMarker ("abc".data) = true ∧
       containsSub delim ("abc".data) = true)) :=
  ⟨c4_classification.2 _ _ _ _ (by decide) (by decide) (by decide) (by decide),
   c4_classification.1 _ (by decide)⟩

/-! ### Claim C5: partial-failure containment -/

theorem countP_secLines (m : Str) (r : TranscriptionResult) (hr : GoodResult r) :
    (secLines m r).countP (fun l => startswith fileMarker l) = 1 := by
  obtain ⟨-, -, -, -, -, -, -, -, -, htok⟩ := hr
  have hfile : startswith fileMarker (fileMarkerSp ++ r.filename) = true := by
    rw [fileMarkerSp_eq, List.append_assoc]
    exact startswith_append_self _ _
  have htextz : (pySplit '\n' r.text).countP (fun l => startswith fileMarker l) = 0 := by
    rw [List.countP_eq_zero]
    intro l hl
    simp [(htok l hl).1]
  have hdl : startswith fileMarker (dlLabelFull ++ r.language) = false :=
    startswith_append_false _ (by decide) (by decide)
  have hmu : startswith fileMarker (muLabelFull ++ m) = false :=
    startswith_append_false _ (by decide) (by decide)
  have hdur : (durLines r.duration).countP (fun l => startswith fileMarker l) = 0 := by
    cases r.duration with
    | none => simp [durLines]
    | some d =>
      have hfd : startswith fileMarker (durLabelFull ++ (d ++ secondsSuffix)) = false :=
        startswith_append_false _ (by decide) (by decide)
      simp [durLines, hfd]
  simp [secLines, List.countP_cons, List.countP_append, hfile, htextz, hdl, hmu, hdur,
    (by decide : startswith fileMarker transLabel = false),
    (by decide : startswith fileMarker ([] : Str) = false),
    (by decide : startswith fileMarker delim = false)]

theorem countFileLines_format {m : Str} {rs : List TranscriptionResult}
    (hm : '\n' ∉ m) (hrs : ∀ r ∈ rs, GoodResult r) :
    countFileLines (format_results m rs) = rs.length := by
  unfold countFileLines
  rw [pySplit_format_results hm hrs]
  have hsum0 : startswith fileMarker (summary_line rs.length) = false := by
    rw [summary_line, List.append_assoc]
    exact startswith_append_false _ (by decide) (by decide)
  have hflat : ∀ rs' : List TranscriptionResult, (∀ r ∈ rs', GoodResult r) →
      ((rs'.map (secLines m)).flatten).countP (fun l => startswith fileMarker l)
        = rs'.length := by
    intro rs'
    induction rs' with
    | nil => intro _; simp
    | cons r rest ih =>
      intro h
      simp only [List.map_cons, List.flatten_cons, List.countP_append,
        countP_secLines m r (h r (List.mem_cons_self _ _)),
        ih (fun x hx => h x (List.mem_cons_of_mem r hx)), List.length_cons]
      omega
  simp [fmtLines, List.countP_append, List.countP_cons, hsum0, hflat rs hrs,
    (by decide : startswith fileMarker ([] : Str) = false)]

/-- C5: in a 3-item batch whose 2nd item raises a recognition error while
the 1st and 3rd succeed with non-empty (non-adversarial) text, the
aggregated report is exactly the batch report of the 1st and 3rd results, in
input order; it contains exactly 2 `FILE:` sections, and its summary line
counts 2 successes. -/
theorem c5_partial_failure (recognize : Str → Option Str → Except Str RecogOutput)
    (p1 p2 p3 : Str) (lang : Option Str) (m : Str) (r1 r3 : RecogOutput) (e : Str)
    (h1 : recognize p1 (options_language lang) = .ok r1)
    (h2 : recognize p2 (options_language lang) = .error e)
    (h3 : recognize p3 (options_language lang) = .ok r3)
    (ht1 : r1.text ≠ []) (ht3 : r3.text ≠ [])
    (hg1 : GoodResult ⟨basename p1, r1.text, r1.language, r1.duration⟩)
    (hg3 : GoodResult ⟨basename p3, r3.text, r3.language, r3.duration⟩)
    (hm : '\n' ∉ m) :
    transcribe_handler recognize [p1, p2, p3] none lang m
      = format_results m [⟨basename p1, r1.text, r1.language, r1.duration⟩,
                          ⟨basename p3, r3.text, r3.language, r3.duration⟩] ∧
    countFileLines (transcribe_handler recognize [p1, p2, p3] none lang m) = 2 ∧
    startswith (summary_line 2)
        (transcribe_handler recognize [p1, p2, p3] none lang m) = true := by
  have he1 : r1.text.isEmpty = false := by
    cases hh : r1.text with
    | nil => exact absurd hh ht1
    | cons a b => rfl
  have he3 : r3.text.isEmpty = false := by
    cases hh : r3.text with
    | nil => exact absurd hh ht3
    | cons a b => rfl
  have hmain : transcribe_handler recognize [p1, p2, p3] none lang m
      = format_results m [⟨basename p1, r1.text, r1.language, r1.duration⟩,
                          ⟨basename p3, r3.text, r3.language, r3.duration⟩] := by
    simp [transcribe_handler, transcribe_multiple_files, transcribe_audio,
      List.filterMap_cons, h1, h2, h3, he1, he3, ht1, ht3, format_results, result_item]
  refine ⟨hmain, ?_, ?_⟩
  · rw [hmain]
    have hcount := @countFileLines_format m
      [⟨basename p1, r1.text, r1.language, r1.duration⟩,
       ⟨basename p3, r3.text, r3.language, r3.duration⟩] hm ?_
    · simpa using hcount
    · intro r hr
      simp only [List.mem_cons, List.not_mem_nil, or_false] at hr
      rcases hr with rfl | rfl
      · exact hg1
      · exact hg3
  · rw [hmain]
    rw [show format_results m [⟨basename p1, r1.text, r1.language, r1.duration⟩,
          ⟨basename p3, r3.text, r3.language, r3.duration⟩]
        = summary_line 2 ++ '\n' :: '\n' ::
          (([⟨basename p1, r1.text, r1.language, r1.duration⟩,
             ⟨basename p3, r3.text, r3.language, r3.duration⟩].map
               (result_item m)).map batch_section).flatten
        from by simp [format_results, format_batch]]
    exact startswith_append_self _ _

/-- C5 (witness): the partial-failure property evaluated on a concrete
3-item batch whose middle item fails. -/
theorem c5_partial_failure_witness :
    transcribe_handler recogW ["a.wav".data, "bad.wav".data, "c.wav".data]
        none none ("base".data)
      = format_results ("base".data)
          [⟨basename ("a.wav".data), "hello".data, "en".data, some ("1.23".data)⟩,
           ⟨basename ("c.wav".data), "world".data, "en".data, some ("2.50".data)⟩] ∧
    countFileLines (transcribe_handler recogW
        ["a.wav".data, "bad.wav".data, "c.wav".data] none none ("base".data)) = 2 ∧
    startswith (summary_line 2) (transcribe_handler recogW
        ["a.wav".data, "bad.wav".data, "c.wav".data] none none ("base".data)) = true :=
  c5_partial_failure recogW ("a.wav".data) ("bad.wav".data) ("c.wav".data) none
    ("base".data) ⟨"hello".data, "en".data, some ("1.23".data)⟩
    ⟨"world".data, "en".data, some ("2.50".data)⟩ ("bad file".data)
    (by simp [recogW]) (by simp [recogW]) (by simp [recogW]) (by decide) (by decide)
    (by decide) (by decide) (by decide)

/-! ### Claim C6: empty-batch distinguishability -/

/-- C6: with no audio files (and no microphone input) the handler returns a
request-level error message; that message contains no `FILE:` marker and is
not classified as a batch report; and it differs from the output of any
multi-file batch in which every item failed (which is a `0 files` success
summary instead). -/
theorem c6_empty_batch :
    (∀ (recognize : Str → Option Str → Except Str RecogOutput)
       (lang : Option Str) (m : Str),
      transcribe_handler recognize [] none lang m = noFilesMsg) ∧
    containsSub fileMarker noFilesMsg = false ∧
    classify noFilesMsg = ExportKind.single ∧
    (∀ (recognize : Str → Option Str → Except Str RecogOutput)
       (lang : Option Str) (m : Str) (p q : Str) (ps : List Str),
      (∀ x ∈ p :: q :: ps, (transcribe_audio recognize x lang m).1 = []) →
      transcribe_handler recognize (p :: q :: ps) none lang m ≠ noFilesMsg) := by
  refine ⟨fun recognize lang m => rfl, by decide, by decide, ?_⟩
  intro recognize lang m p q ps hall
  have hgen : ∀ (xs : List Str),
      (∀ x ∈ xs, (transcribe_audio recognize x lang m).1 = []) →
      transcribe_multiple_files recognize xs lang m = [] := by
    intro xs
    induction xs with
    | nil => intro _; rfl
    | cons a b ih =>
      intro h
      have ha := h a (List.mem_cons_self _ _)
      simp only [transcribe_multiple_files, List.filterMap_cons, ha, List.isEmpty_nil,
        if_true]
      exact ih (fun x hx => h x (List.mem_cons_of_mem a hx))
  have hh : transcribe_handler recognize (p :: q :: ps) none lang m
      = format_batch (transcribe_multiple_files recognize (p :: q :: ps) lang m) := rfl
  rw [hh, hgen _ hall]
  decide

/-- C6 (witness): the all-items-failed batch evaluated concretely. -/
theorem c6_empty_batch_witness :
    transcribe_handler (fun _ _ => .error ("boom".data)) [] none none ("base".data)
      = noFilesMsg ∧
    transcribe_handler (fun _ _ => .error ("boom".data))
        ["p1".data, "p2".data] none none ("base".data) ≠ noFilesMsg :=
  ⟨c6_empty_batch.1 _ _ _, c6_empty_batch.2.2.2 _ _ _ _ _ _ (by decide)⟩

/-! ### Claim C7: model-load failure -/

/-- C7 (counterexample): when construction fails, the cache state is NOT
left unchanged — the recorded identifier is overwritten with the failed
request (the source assigns `self.model_name` before attempting
construction), though the active handle itself survives. -/
theorem c7_load_failure_counterexample :
    (load_model (fun _ => .error ("boom".data))
        ⟨some ⟨"base".data⟩, "base".data⟩ ("large".data)).1
      ≠ ⟨some ⟨"base".data⟩, "base".data⟩ ∧
    (load_model (fun _ => .error ("boom".data))
        ⟨some ⟨"base".data⟩, "base".data⟩ ("large".data)).1.model_name
      = "large".data ∧
    (load_model (fun _ => .error ("boom".data))
        ⟨some ⟨"base".data⟩, "base".data⟩ ("large".data)).1.model
      = some ⟨"base".data⟩ := by
  decide

/-- C7 (amended): when construction is attempted (empty cache or different
identifier) and fails, `load_model` returns a failure status carrying the
underlying error description; the previously active handle is untouched
(it is replaced only after successful construction), but the recorded
identifier has already been updated to the requested one. -/
theorem c7_load_failure (build : Str → Except Str RecognizerHandle)
    (s : CacheState) (name e : Str)
    (hcond : s.model = none ∨ s.model_name ≠ name)
    (hbuild : build name = .error e) :
    load_model build s name = (⟨s.model, name⟩, loadErrPre ++ e, true) := by
  unfold load_model
  rw [if_pos hcond, hbuild]

/-- C7 (witness): the amended statement at a concrete cache state and
failing build. -/
theorem c7_load_failure_witness :
    load_model (fun _ => .error ("boom".data))
        ⟨some ⟨"base".data⟩, "base".data⟩ ("large".data)
      = (⟨some ⟨"base".data⟩, "large".data⟩, loadErrPre ++ "boom".data, true) :=
  c7_load_failure _ _ _ _ (by decide) rfl

/-! ### Claim C8: idempotent cache -/

/-- C8: starting from a cache that does not hold `X`, loading `X` twice
constructs exactly once (first call constructs, second takes the fast path);
a subsequent load of a different `Y` constructs again, after which the
handle for `X` is no longer the active one. -/
theorem c8_idempotent_cache (s : CacheState) (X Y : Str)
    (hX : s.model = none ∨ s.model_name ≠ X) (hXY : X ≠ Y) :
    (load_model whisper_build s X).2.2 = true ∧
    (load_model whisper_build (load_model whisper_build s X).1 X).2.2 = false ∧
    (load_model whisper_build (load_model whisper_build s X).1 X).1.model
      = some ⟨X⟩ ∧
    (load_model whisper_build
        (load_model whisper_build (load_model whisper_build s X).1 X).1 Y).2.2
      = true ∧
    (load_model whisper_build
        (load_model whisper_build (load_model whisper_build s X).1 X).1 Y).1.model
      = some ⟨Y⟩ ∧
    (load_model whisper_build
        (load_model whisper_build (load_model whisper_build s X).1 X).1 Y).1.model
      ≠ some ⟨X⟩ := by
  have hstep1 : load_model whisper_build s X = (⟨some ⟨X⟩, X⟩, loadedMsg X, true) := by
    unfold load_model whisper_build
    rw [if_pos hX]
  have hstep2 : load_model whisper_build (⟨some ⟨X⟩, X⟩ : CacheState) X
      = (⟨some ⟨X⟩, X⟩, alreadyMsg X, false) := by
    unfold load_model
    rw [if_neg (by simp)]
  have hstep3 : load_model whisper_build (⟨some ⟨X⟩, X⟩ : CacheState) Y
      = (⟨some ⟨Y⟩, Y⟩, loadedMsg Y, true) := by
    unfold load_model whisper_build
    rw [if_pos (Or.inr hXY)]
  rw [hstep1, hstep2, hstep3]
  refine ⟨rfl, rfl, rfl, rfl, rfl, ?_⟩
  simp only [ne_eq, Option.some.injEq, RecognizerHandle.mk.injEq]
  exact fun h => hXY h.symm

/-- C8 (witness): the idempotent-cache property at concrete identifiers. -/
theorem c8_idempotent_cache_witness :
    (load_model whisper_build ⟨none, "base".data⟩ ("base".data)).2.2 = true ∧
    (load_model whisper_build
        (load_model whisper_build ⟨none, "base".data⟩ ("base".data)).1
        ("base".data)).2.2 = false ∧
    (load_model whisper_build
        (load_model whisper_build ⟨none, "base".data⟩ ("base".data)).1
        ("base".data)).1.model = some ⟨"base".data⟩ ∧
    (load_model whisper_build
        (load_model whisper_build
          (load_model whisper_build ⟨none, "base".data⟩ ("base".data)).1
          ("base".data)).1 ("large".data)).2.2 = true ∧
    (load_model whisper_build
        (load_model whisper_build
          (load_model whisper_build ⟨none, "base".data⟩ ("base".data)).1
          ("base".data)).1 ("large".data)).1.model = some ⟨"large".data⟩ ∧
    (load_model whisper_build
        (load_model whisper_build
          (load_model whisper_build ⟨none, "base".data⟩ ("base".data)).1
          ("base".data)).1 ("large".data)).1.model ≠ some ⟨"base".data⟩ :=
  c8_idempotent_cache ⟨none, "base".data⟩ ("base".data) ("large".data)
    (by decide) (by decide)

/-! ### Claim C9: language option -/

/-- C9: the options dict passed to the recognizer carries no language entry
at all when the selector is auto-detect or absent (never a null placeholder),
and carries exactly the chosen code when an explicit non-empty code other
than auto-detect is selected. -/
theorem c9_language_options :
    options_language none = none ∧
    options_language (some autoDetect) = none ∧
    (∀ l : Str, l ≠ [] → l ≠ autoDetect → options_language (some l) = some l) := by
  refine ⟨rfl, by simp [options_language], ?_⟩
  intro l h1 h2
  simp [options_language, h1, h2]

/-- C9 (witness): the explicit-language case at a concrete code. -/
theorem c9_language_options_witness :
    options_language (some ("en".data)) = some ("en".data) :=
  c9_language_options.2.2 _ (by decide) (by decide)

/-! ### Claim C10: empty-text success is indistinguishable from failure -/

/-- C10: (a) replacing any recognizer outcomes by others that agree except
on items whose transcription text is empty under both leaves the aggregated
batch report unchanged — a success with empty text is indistinguishable in
the report (and in its summary count) from a raised error; (b) an item whose
transcription text is empty is omitted from the aggregation exactly as if it
were not in the input list. -/
theorem c10_empty_text_indistinguishable :
    (∀ (recog1 recog2 : Str → Option Str → Except Str RecogOutput)
       (lang : Option Str) (m : Str) (paths : List Str),
      (∀ p ∈ paths,
        recog1 p (options_language lang) = recog2 p (options_language lang) ∨
        ((transcribe_audio recog1 p lang m).1 = [] ∧
         (transcribe_audio recog2 p lang m).1 = [])) →
      format_batch (transcribe_multiple_files recog1 paths lang m)
        = format_batch (transcribe_multiple_files recog2 paths lang m)) ∧
    (∀ (recog : Str → Option Str → Except Str RecogOutput) (lang : Option Str)
       (m : Str) (pre suf : List Str) (p : Str),
      (transcribe_audio recog p lang m).1 = [] →
      transcribe_multiple_files recog (pre ++ p :: suf) lang m
        = transcribe_multiple_files recog (pre ++ suf) lang m) := by
  constructor
  · intro recog1 recog2 lang m paths h
    have hfiles : transcribe_multiple_files recog1 paths lang m
        = transcribe_multiple_files recog2 paths lang m := by
      induction paths with
      | nil => rfl
      | cons a b ih =>
        have ha := h a (List.mem_cons_self _ _)
        have ihb := ih (fun x hx => h x (List.mem_cons_of_mem a hx))
        simp only [transcribe_multiple_files, List.filterMap_cons] at ihb ⊢
        rcases ha with ha | ⟨ha1, ha2⟩
        · rw [show transcribe_audio recog1 a lang m = transcribe_audio recog2 a lang m
            from by simp [transcribe_audio, ha]]
          rw [ihb]
        · simp only [ha1, ha2, List.isEmpty_nil, if_true]
          exact ihb
    rw [hfiles]
  · intro recog lang m pre suf p hp
    simp only [transcribe_multiple_files, List.filterMap_append, List.filterMap_cons,
      hp, List.isEmpty_nil, if_true]

/-- C10 (witness): a success with empty text produces the same batch report
as an outright recognition error, and is dropped from the aggregation. -/
theorem c10_empty_text_witness :
    format_batch (transcribe_multiple_files
        (fun _ _ => .ok ⟨[], "en".data, none⟩) ["x".data, "y".data] none ("base".data))
      = format_batch (transcribe_multiple_files
        (fun _ _ => .error ("boom".data)) ["x".data, "y".data] none ("base".data)) ∧
    transcribe_multiple_files recogW
        (["a.wav".data] ++ "bad.wav".data :: ["c.wav".data]) none ("base".data)
      = transcribe_multiple_files recogW
        (["a.wav".data] ++ ["c.wav".data]) none ("base".data) :=
  ⟨c10_empty_text_indistinguishable.1 _ _ _ _ _ (fun p hp => Or.inr ⟨rfl, rfl⟩),
   c10_empty_text_indistinguishable.2 _ _ _ _ _ _ (by decide)⟩
